import Mathlib

/-!
Verification of the Bible Databases API (`main.py`) against its
natural-language specification.

The embedding models:
- SQLite tables as Lean lists of typed rows; `WHERE` clauses become
  `List.filter`, `ORDER BY` becomes a stable sort by a key into a linear
  order, `LIMIT n` becomes `List.take n`, `fetchone` becomes `List.head?`.
- the filesystem as the list of existing file paths;
- `HTTPException` outcomes as an `Except ApiError` result;
- SQLite `LIKE` matching (with its `%`/`_` wildcards and ASCII-only case
  folding) as a recursive matcher over character lists;
- the in-memory annotation store as explicit state passing.
-/

/-- Errors surfaced by the API layer (`HTTPException` in the source). -/
inductive ApiError where
  | datasetNotFound (path : String)
  | notFound
  | noTranslationsFound
  | engineError
deriving DecidableEq, Repr

/-- Row of a per-translation `<ID>_verses` table. -/
structure VerseRow where
  book_id : Int
  chapter : Int
  verse : Int
  text : String
deriving DecidableEq, Repr

/- ------------------------------------------------------------------
   Stable sort by key: the model of SQL ORDER BY.
   ------------------------------------------------------------------ -/

/-- Insert `a` into `l` before the first element whose key is not
strictly smaller than the key of `a`.  Used to model `ORDER BY`. -/
def insertSorted {α κ : Type} [LinearOrder κ] (k : α → κ) (a : α) : List α → List α
  | [] => [a]
  | b :: bs => if k b < k a then b :: insertSorted k a bs else a :: b :: bs

/-- Stable insertion sort by the key `k` (ascending). -/
def sortByKey {α κ : Type} [LinearOrder κ] (k : α → κ) : List α → List α
  | [] => []
  | a :: as => insertSorted k a (sortByKey k as)

/- ------------------------------------------------------------------
   Dataset Locator (`get_db_connection`, `get_translation_db`).
   The filesystem is modelled as the list of existing file paths.
   ------------------------------------------------------------------ -/

/-- Base directory of the sqlite datasets (`BASE_DB_PATH` in the source). -/
def BASE_DB_PATH : String := "bible_databases/formats/sqlite"

/-- Model of Python `str.upper()` (ASCII behaviour). -/
def strUpper (s : String) : String := String.mk (s.data.map Char.toUpper)

/-- Physical path computed by `get_translation_db`:
`os.path.join(BASE_DB_PATH, f"{translation_id.upper()}.db")`. -/
def translationDbPath (translation_id : String) : String :=
  BASE_DB_PATH ++ "/" ++ strUpper translation_id ++ ".db"

/-- Model of `get_db_connection`: succeeds with a handle (the path) when the
file exists, otherwise raises 404. -/
def get_db_connection (fs : List String) (db_path : String) : Except ApiError String :=
  if db_path ∈ fs then .ok db_path else .error (.datasetNotFound db_path)

/-- Model of `get_translation_db`. -/
def get_translation_db (fs : List String) (translation_id : String) :
    Except ApiError String :=
  get_db_connection fs (translationDbPath translation_id)

/-- Query string interpolated by `get_books_for_translation`
(`f"SELECT id, name FROM {table_name} ORDER BY id"` with
`table_name = f"{translation_id.upper()}_books"`). -/
def books_query (translation_id : String) : String :=
  "SELECT id, name FROM " ++ strUpper translation_id ++ "_books ORDER BY id"

/-- Modelled from the spec: the allow-list pattern (alphanumeric plus
underscore) that section 4.1 requires identifiers to be validated against;
no such validation exists anywhere in the source. -/
def isAllowListed (s : String) : Bool :=
  s.data.all (fun c =>
    ('A' ≤ c && c ≤ 'Z') || ('a' ≤ c && c ≤ 'z') || ('0' ≤ c && c ≤ '9') || c = '_')

/- ------------------------------------------------------------------
   Query Engine: chapters, verses, passages, search.
   ------------------------------------------------------------------ -/

/-- Sort key for `ORDER BY chapter, verse`. -/
def vkey (r : VerseRow) : Lex (Int × Int) := toLex (r.chapter, r.verse)

/-- Model of `get_verses_in_chapter`: `SELECT verse, text FROM <T>_verses
WHERE book_id = ? AND chapter = ? ORDER BY verse`, 404 when empty. -/
def get_verses_in_chapter (tbl : List VerseRow) (book_id chapter : Int) :
    Except ApiError (List VerseRow) :=
  let verses := sortByKey (fun r => r.verse)
    (tbl.filter (fun r => r.book_id = book_id && r.chapter = chapter))
  if verses.isEmpty then .error .notFound else .ok verses

/-- Model of `get_chapter_counts`: `SELECT chapter, COUNT(*) FROM <T>_verses
WHERE book_id = ? GROUP BY chapter ORDER BY chapter`, returned as a
chapter-to-count mapping; 404 when the book has no verses. -/
def get_chapter_counts (tbl : List VerseRow) (book_id : Int) :
    Except ApiError (List (Int × Nat)) :=
  let rows := tbl.filter (fun r => r.book_id = book_id)
  let result := (sortByKey (fun c => c) (rows.map (fun r => r.chapter)).dedup).map
    (fun c => (c, (rows.filter (fun r => r.chapter = c)).length))
  if result.isEmpty then .error .notFound else .ok result

/-- Model of `get_passage`: one branch for a single-chapter range
(`verse BETWEEN ? AND ? ORDER BY verse`), one for a multi-chapter range
(three-way disjunction, `ORDER BY chapter, verse`); 404 when empty. -/
def get_passage (tbl : List VerseRow)
    (book start_chapter start_verse end_chapter end_verse : Int) :
    Except ApiError (List VerseRow) :=
  let rows :=
    if start_chapter = end_chapter then
      sortByKey (fun r => r.verse)
        (tbl.filter (fun r => r.book_id = book && r.chapter = start_chapter &&
          start_verse ≤ r.verse && r.verse ≤ end_verse))
    else
      sortByKey vkey
        (tbl.filter (fun r => r.book_id = book &&
          ((r.chapter = start_chapter && start_verse ≤ r.verse) ||
           (start_chapter < r.chapter && r.chapter < end_chapter) ||
           (r.chapter = end_chapter && r.verse ≤ end_verse))))
  if rows.isEmpty then .error .notFound else .ok rows

/-- Membership predicate stated by the specification for a passage query
(single-chapter case, and the three-part union otherwise). -/
def passageSpecPred (book start_chapter start_verse end_chapter end_verse : Int)
    (r : VerseRow) : Bool :=
  r.book_id = book &&
    (if start_chapter = end_chapter then
      r.chapter = start_chapter && start_verse ≤ r.verse && r.verse ≤ end_verse
     else
      (r.chapter = start_chapter && start_verse ≤ r.verse) ||
      (start_chapter < r.chapter && r.chapter < end_chapter) ||
      (r.chapter = end_chapter && r.verse ≤ end_verse))

/-- Model of SQLite `LIKE` matching: `%` matches any sequence (tried as
every suffix of the text), `_` matches exactly one character, and plain
characters compare case-insensitively via ASCII lowering, which is
SQLite's default `LIKE` behaviour. -/
def likeMatch : List Char → List Char → Bool
  | [], t => t.isEmpty
  | p :: ps, t =>
    if p = '%' then
      t.tails.any (fun s => likeMatch ps s)
    else if p = '_' then
      match t with
      | [] => false
      | _ :: ts => likeMatch ps ts
    else
      match t with
      | [] => false
      | c :: ts => (p.toLower = c.toLower) && likeMatch ps ts

/-- Queries containing neither `LIKE` wildcard. -/
def noWildcards (q : String) : Bool :=
  q.data.all (fun c => c ≠ '%' && c ≠ '_')

/-- ASCII-lowered character list of a string. -/
def lowerChars (l : List Char) : List Char := l.map Char.toLower

/-- Case-insensitive (ASCII) substring containment, the reading of
"the returned row's text contains the query substring" under the
engine's documented case rule. -/
def containsCI (q t : String) : Prop := lowerChars q.data <:+: lowerChars t.data

/-- Row filter of `search_verses`: `text LIKE '%' + query + '%'`,
optionally `AND book_id = ?`. -/
def searchPred (query : String) (book : Option Int) (r : VerseRow) : Bool :=
  likeMatch ('%' :: (query.data ++ ['%'])) r.text.data &&
    (match book with
     | none => true
     | some b => r.book_id = b)

/-- Model of `search_verses`: filter, `ORDER BY chapter, verse`, `LIMIT 100`;
an empty match set is an empty list, not an error. -/
def search_verses (tbl : List VerseRow) (query : String) (book : Option Int) :
    List VerseRow :=
  (sortByKey vkey (tbl.filter (searchPred query book))).take 100

/- ------------------------------------------------------------------
   listTranslations (`get_all_translations`).
   ------------------------------------------------------------------ -/

/-- Catalog row of a per-translation dataset. -/
structure Translation where
  translation : String
  title : String
  license : Option String
deriving DecidableEq, Repr

/-- Outcome of opening one file and reading its single catalog row.
Everything but a well-formed row is caught by the blanket `except` in
the source and merely logged. -/
inductive CatalogRead where
  | openError
  | queryError
  | noRow
  | row (t : Translation)
deriving DecidableEq, Repr

/-- The catalog row a scan step contributes, if any. -/
def readCatalog : CatalogRead → Option Translation
  | .row t => some t
  | _ => none

/-- Model of `filename.endswith(".db")` as a suffix test on characters. -/
def endsWithDb (s : String) : Bool := decide (".db".data <:+ s.data)

/-- The scan loop of `get_all_translations`: iterate over directory
entries, consider only names ending in `.db`, keep well-formed catalog
rows, skip failures and continue. -/
def scanTranslations : List (String × CatalogRead) → List Translation
  | [] => []
  | (name, r) :: files =>
    if endsWithDb name then
      match readCatalog r with
      | some t => t :: scanTranslations files
      | none => scanTranslations files
    else scanTranslations files

/-- Model of `get_all_translations`: 404 exactly when the scan found
nothing. -/
def get_all_translations (files : List (String × CatalogRead)) :
    Except ApiError (List Translation) :=
  let ts := scanTranslations files
  if ts.isEmpty then .error .noTranslationsFound else .ok ts

/- ------------------------------------------------------------------
   Annotation store (in-memory, process lifetime).
   ------------------------------------------------------------------ -/

/-- Stored record (the source keeps `book` as `str(book)`). -/
structure Annot where
  id : Int
  translation : String
  book : String
  chapter : Int
  verse : Int
  note : String
deriving DecidableEq, Repr

/-- Process state: the `ANNOTATIONS` list plus `annotation_id_counter`. -/
structure AnnState where
  counter : Int
  annots : List Annot
deriving DecidableEq, Repr

/-- State at process start: counter 1, empty list. -/
def initAnnState : AnnState := ⟨1, []⟩

/-- Request payload of the add endpoint. -/
structure AnnReq where
  translation : String
  book : Int
  chapter : Int
  verse : Int
  note : String
deriving DecidableEq, Repr

/-- Model of `add_annotation`: build the record from the current counter,
append it, increment the counter. -/
def add_annot (s : AnnState) (q : AnnReq) : Annot × AnnState :=
  let a : Annot := ⟨s.counter, strUpper q.translation, toString q.book,
    q.chapter, q.verse, q.note⟩
  (a, ⟨s.counter + 1, s.annots ++ [a]⟩)

/-- State after a sequence of add requests from process start.  The read
endpoint is a pure filter and never changes this state; no other
operation touches the store. -/
def runAdds (reqs : List AnnReq) : AnnState :=
  reqs.foldl (fun s q => (add_annot s q).2) initAnnState

/- ------------------------------------------------------------------
   compare_translations.
   ------------------------------------------------------------------ -/

/-- Per-side value stored in the compare result map. -/
inductive SideResult where
  | verseRow (verse : Int) (text : String)
  | verseNotFound
  | chapterRows (rows : List VerseRow)
  | engineError
deriving DecidableEq, Repr

/-- World of datasets for compare: path to either `none` (file opens but
its verses table is broken, so the query raises a caught engine error)
or a verse table; a path absent from the list does not exist on disk. -/
abbrev DbWorld := List (String × Option (List VerseRow))

/-- Look up a dataset by path. -/
def findDb : DbWorld → String → Option (Option (List VerseRow))
  | [], _ => none
  | (p, d) :: w, path => if p = path then some d else findDb w path

/-- Single-verse lookup of the compare loop (`fetchone`; the row order of
the table stands in for the unordered SQL result). -/
def verseQuery (tbl : List VerseRow) (book chapter v : Int) : SideResult :=
  match (tbl.filter (fun r => r.book_id = book && r.chapter = chapter && r.verse = v)).head? with
  | some r => .verseRow r.verse r.text
  | none => .verseNotFound

/-- Whole-chapter lookup of the compare loop (`ORDER BY verse`). -/
def chapterQuery (tbl : List VerseRow) (book chapter : Int) : SideResult :=
  .chapterRows (sortByKey (fun r => r.verse)
    (tbl.filter (fun r => r.book_id = book && r.chapter = chapter)))

/-- One iteration of the compare loop.  `get_translation_db` runs outside
the `try`, so a missing dataset raises; a broken table raises
`sqlite3.Error` inside the `try` and is recorded per side.  Python's
`if verse:` treats both `None` and `0` as false. -/
def compareSide (w : DbWorld) (t : String) (book chapter : Int)
    (verse : Option Int) : Except ApiError SideResult :=
  match findDb w (translationDbPath t) with
  | none => .error (.datasetNotFound (translationDbPath t))
  | some none => .ok .engineError
  | some (some tbl) =>
    match verse with
    | some v =>
      if v = 0 then .ok (chapterQuery tbl book chapter)
      else .ok (verseQuery tbl book chapter v)
    | none => .ok (chapterQuery tbl book chapter)

/-- Python dict insertion (overwrite in place, else append). -/
def dictInsert {β : Type} (d : List (String × β)) (key : String) (v : β) :
    List (String × β) :=
  if d.any (fun p => p.1 = key) then
    d.map (fun p => if p.1 = key then (key, v) else p)
  else d ++ [(key, v)]

/-- Python dict lookup. -/
def dictLookup {β : Type} : List (String × β) → String → Option β
  | [], _ => none
  | (k, v) :: d, key => if k = key then some v else dictLookup d key

/-- Model of `compare_translations`: the loop body for `translation1`
then `translation2`; an uncaught exception from either iteration aborts
the whole request. -/
def compare_translations (w : DbWorld) (t1 t2 : String) (book chapter : Int)
    (verse : Option Int) : Except ApiError (List (String × SideResult)) :=
  match compareSide w t1 book chapter verse with
  | .error e => .error e
  | .ok r1 =>
    match compareSide w t2 book chapter verse with
    | .error e => .error e
    | .ok r2 => .ok (dictInsert (dictInsert [] (strUpper t1) r1) (strUpper t2) r2)

/- ==================================================================
   Theorems.
   ================================================================== -/

theorem insertSorted_perm {α κ : Type} [LinearOrder κ] (k : α → κ) (a : α)
    (l : List α) : (insertSorted k a l).Perm (a :: l) := by
  induction l with
  | nil => simp [insertSorted]
  | cons b bs ih =>
    by_cases hb : k b < k a
    · simp only [insertSorted, if_pos hb]
      exact (ih.cons b).trans (List.Perm.swap a b bs)
    · simp [insertSorted, if_neg hb]

theorem sortByKey_perm {α κ : Type} [LinearOrder κ] (k : α → κ)
    (l : List α) : (sortByKey k l).Perm l := by
  induction l with
  | nil => simp [sortByKey]
  | cons a as ih =>
    exact (insertSorted_perm k a (sortByKey k as)).trans (ih.cons a)

theorem insertSorted_pairwise {α κ : Type} [LinearOrder κ] {k : α → κ} {a : α}
    {l : List α} (h : l.Pairwise (fun x y => k x ≤ k y)) :
    (insertSorted k a l).Pairwise (fun x y => k x ≤ k y) := by
  induction l with
  | nil => simp [insertSorted]
  | cons b bs ih =>
    rw [List.pairwise_cons] at h
    by_cases hb : k b < k a
    · simp only [insertSorted, if_pos hb]
      rw [List.pairwise_cons]
      refine ⟨?_, ih h.2⟩
      intro x hx
      rcases List.mem_cons.1 ((insertSorted_perm k a bs).mem_iff.1 hx) with hx | hx
      · exact hx ▸ le_of_lt hb
      · exact h.1 x hx
    · simp only [insertSorted, if_neg hb]
      rw [List.pairwise_cons]
      refine ⟨?_, List.pairwise_cons.2 ⟨h.1, h.2⟩⟩
      intro x hx
      rcases List.mem_cons.1 hx with hx | hx
      · exact hx ▸ le_of_not_lt hb
      · exact le_trans (le_of_not_lt hb) (h.1 x hx)

theorem sortByKey_sorted {α κ : Type} [LinearOrder κ] (k : α → κ)
    (l : List α) : (sortByKey k l).Pairwise (fun x y => k x ≤ k y) := by
  induction l with
  | nil => simp [sortByKey]
  | cons a as ih => exact insertSorted_pairwise ih

theorem sortByKey_eq_nil_iff {α κ : Type} [LinearOrder κ] (k : α → κ)
    (l : List α) : sortByKey k l = [] ↔ l = [] := by
  constructor
  · intro h
    have hlen := (sortByKey_perm k l).length_eq
    rw [h] at hlen
    exact List.length_eq_zero.1 hlen.symm
  · intro h
    subst h
    rfl

theorem mem_sortByKey {α κ : Type} [LinearOrder κ] {k : α → κ}
    {l : List α} {x : α} : x ∈ sortByKey k l ↔ x ∈ l :=
  (sortByKey_perm k l).mem_iff

/-- C8: the Dataset Locator normalizes the identifier to upper case (two
identifiers with the same canonical form resolve identically), derives the
dataset path purely from the canonical form, and fails with DatasetNotFound
for that path exactly when the path does not exist. -/
theorem get_translation_db_spec (fs : List String) (t1 t2 : String)
    (h : strUpper t1 = strUpper t2) :
    get_translation_db fs t1 = get_translation_db fs t2 ∧
    (get_translation_db fs t1 = .ok (translationDbPath t1) ↔
      translationDbPath t1 ∈ fs) ∧
    (get_translation_db fs t1 = .error (.datasetNotFound (translationDbPath t1)) ↔
      translationDbPath t1 ∉ fs) := by
  have hp : translationDbPath t1 = translationDbPath t2 := by
    simp [translationDbPath, h]
  refine ⟨by simp [get_translation_db, hp], ?_, ?_⟩
  · by_cases hm : translationDbPath t1 ∈ fs <;>
      simp [get_translation_db, get_db_connection, hm]
  · by_cases hm : translationDbPath t1 ∈ fs <;>
      simp [get_translation_db, get_db_connection, hm]

theorem get_translation_db_spec_witness :
    strUpper "kjv" = strUpper "KJV" ∧
    get_translation_db ["bible_databases/formats/sqlite/KJV.db"] "kjv" =
      get_translation_db ["bible_databases/formats/sqlite/KJV.db"] "KJV" :=
  ⟨by decide,
    (get_translation_db_spec ["bible_databases/formats/sqlite/KJV.db"]
      "kjv" "KJV" (by decide)).1⟩

/-- C2: no allow-list validation exists in the code.  An identifier far
outside `[A-Za-z0-9_]` is accepted by the Dataset Locator whenever its
derived file exists, and is interpolated verbatim into the books query
string; no ValidationError is ever produced. -/
theorem no_identifier_validation :
    isAllowListed "A B;--" = false ∧
    get_translation_db [translationDbPath "A B;--"] "A B;--" =
      .ok (translationDbPath "A B;--") ∧
    books_query "A B;--" = "SELECT id, name FROM A B;--_books ORDER BY id" := by
  refine ⟨by decide, ?_, by decide⟩
  simp [get_translation_db, get_db_connection]

/-- C10: compare called with verse = 0 runs the whole-chapter comparison for
both translations, identically to passing no verse at all (Python treats 0
as falsy); the single-verse branch runs only for non-zero verse values. -/
theorem compare_verse_zero_spec (w : DbWorld) (t1 t2 : String)
    (book chapter : Int) :
    compare_translations w t1 t2 book chapter (some 0) =
      compare_translations w t1 t2 book chapter none ∧
    (∀ t tbl, findDb w (translationDbPath t) = some (some tbl) →
      compareSide w t book chapter (some 0) = .ok (chapterQuery tbl book chapter) ∧
      ∀ v : Int, v ≠ 0 →
        compareSide w t book chapter (some v) = .ok (verseQuery tbl book chapter v)) := by
  have hside : ∀ t, compareSide w t book chapter (some 0) =
      compareSide w t book chapter none := by
    intro t
    cases hfd : findDb w (translationDbPath t) with
    | none => simp [compareSide, hfd]
    | some d => cases d <;> simp [compareSide, hfd]
  refine ⟨by simp [compare_translations, hside], ?_⟩
  intro t tbl hfd
  refine ⟨by simp [compareSide, hfd], ?_⟩
  intro v hv
  simp [compareSide, hfd, hv]

theorem compare_verse_zero_spec_witness :
    compare_translations [("bible_databases/formats/sqlite/T1.db", some [])]
        "T1" "T1" 1 1 (some 0) =
      compare_translations [("bible_databases/formats/sqlite/T1.db", some [])]
        "T1" "T1" 1 1 none ∧
    compareSide [("bible_databases/formats/sqlite/T1.db", some [])] "T1" 1 1 (some 0) =
      .ok (chapterQuery [] 1 1) :=
  ⟨(compare_verse_zero_spec _ "T1" "T1" 1 1).1,
    ((compare_verse_zero_spec
      [("bible_databases/formats/sqlite/T1.db", some [])] "T1" "T1" 1 1).2
      "T1" [] (by decide)).1⟩

theorem range_map_shift (c : Int) (n : Nat) :
    (List.range (n + 1)).map (fun (i : Nat) => c + (i : Int)) =
      c :: (List.range n).map (fun (i : Nat) => (c + 1) + (i : Int)) := by
  rw [List.range_succ_eq_map]
  simp only [List.map_cons, List.map_map, Nat.cast_zero, add_zero]
  congr 1
  apply List.map_congr_left
  intro i _
  simp only [Function.comp_apply, Nat.succ_eq_add_one]
  push_cast
  ring

theorem foldl_add_annot (reqs : List AnnReq) (s : AnnState) :
    ((reqs.foldl (fun s q => (add_annot s q).2) s).counter =
      s.counter + reqs.length) ∧
    ((reqs.foldl (fun s q => (add_annot s q).2) s).annots.map (fun a => a.id) =
      s.annots.map (fun a => a.id) ++
        (List.range reqs.length).map (fun (i : Nat) => s.counter + (i : Int))) := by
  induction reqs generalizing s with
  | nil => simp
  | cons q qs ih =>
    simp only [List.foldl_cons]
    obtain ⟨ih1, ih2⟩ := ih ((add_annot s q).2)
    constructor
    · rw [ih1]
      simp [add_annot]
      ring
    · rw [ih2, List.length_cons, range_map_shift]
      simp [add_annot]

/-- C9: starting from process start, the n-th created record gets id n
(ids are exactly 1..n in creation order, so the first is 1 and every new
id strictly exceeds all earlier ones), and an add only appends to the
stored list.  The read endpoint is a pure filter; no delete or update
operation exists in the embedding, matching the source. -/
theorem annotation_ids_monotonic (reqs : List AnnReq) (q : AnnReq) :
    ((runAdds reqs).annots.map (fun a => a.id) =
      (List.range reqs.length).map (fun (i : Nat) => (1 : Int) + (i : Int))) ∧
    (∀ a ∈ (runAdds reqs).annots, a.id < ((add_annot (runAdds reqs) q).1).id) ∧
    ((runAdds (reqs ++ [q])).annots =
      (runAdds reqs).annots ++ [(add_annot (runAdds reqs) q).1]) := by
  obtain ⟨h1, h2⟩ := foldl_add_annot reqs initAnnState
  refine ⟨?_, ?_, ?_⟩
  · simpa [runAdds, initAnnState] using h2
  · intro a ha
    have hid : a.id ∈ (runAdds reqs).annots.map (fun a => a.id) :=
      List.mem_map_of_mem _ ha
    rw [show (runAdds reqs).annots.map (fun a => a.id) =
        (List.range reqs.length).map (fun (i : Nat) => (1 : Int) + (i : Int)) by
      simpa [runAdds, initAnnState] using h2] at hid
    obtain ⟨i, hi, hids⟩ := List.mem_map.1 hid
    have hcount : ((add_annot (runAdds reqs) q).1).id = (runAdds reqs).counter := rfl
    have hc : (runAdds reqs).counter = 1 + reqs.length := by
      simpa [runAdds, initAnnState] using h1
    rw [hcount, hc, ← hids]
    have : i < reqs.length := List.mem_range.1 hi
    omega
  · rw [runAdds, List.foldl_append]
    simp [runAdds, add_annot]

theorem annotation_ids_monotonic_witness :
    (⟨1, "KJV", "1", 1, 1, "note a"⟩ : Annot).id <
      ((add_annot (runAdds [⟨"kjv", 1, 1, 1, "note a"⟩]) ⟨"kjv", 1, 2, 3, "note b"⟩).1).id :=
  (annotation_ids_monotonic [⟨"kjv", 1, 1, 1, "note a"⟩] ⟨"kjv", 1, 2, 3, "note b"⟩).2.1
    ⟨1, "KJV", "1", 1, 1, "note a"⟩ (by decide)

theorem scanTranslations_eq (files : List (String × CatalogRead)) :
    scanTranslations files =
      (files.filter (fun f => endsWithDb f.1)).filterMap (fun f => readCatalog f.2) := by
  induction files with
  | nil => rfl
  | cons f fs ih =>
    obtain ⟨name, r⟩ := f
    by_cases hdb : endsWithDb name
    · cases hr : readCatalog r <;>
        simp [scanTranslations, hdb, hr, ih, List.filter_cons, List.filterMap_cons]
    · simp [scanTranslations, hdb, ih, List.filter_cons]

/-- C5: listTranslations scans exactly the `.db` directory entries, keeps the
one catalog row of each dataset that opens and yields a well-formed row,
skips (and continues past) any dataset whose open, query or row fails, and
fails with NoTranslationsFound if and only if the scan yields zero entries. -/
theorem get_all_translations_spec (files : List (String × CatalogRead)) :
    (∀ ts, get_all_translations files = .ok ts →
      ts = (files.filter (fun f => endsWithDb f.1)).filterMap (fun f => readCatalog f.2) ∧
      ts ≠ []) ∧
    (get_all_translations files = .error .noTranslationsFound ↔
      (files.filter (fun f => endsWithDb f.1)).filterMap (fun f => readCatalog f.2) = []) ∧
    (∀ e, get_all_translations files = .error e → e = .noTranslationsFound) := by
  have hscan := scanTranslations_eq files
  by_cases hempty : scanTranslations files = []
  · refine ⟨?_, ?_, ?_⟩
    · intro ts hts
      simp [get_all_translations, hempty] at hts
    · simp [get_all_translations, hempty, ← hscan]
    · intro e he
      simp [get_all_translations, hempty] at he
      exact he.symm
  · refine ⟨?_, ?_, ?_⟩
    · intro ts hts
      simp [get_all_translations, List.isEmpty_iff, hempty] at hts
      exact ⟨hts.symm.trans hscan, by rw [← hts]; exact hempty⟩
    · simp [get_all_translations, List.isEmpty_iff, hempty, ← hscan]
    · intro e he
      simp [get_all_translations, List.isEmpty_iff, hempty] at he

theorem emptyGuard_ok {α : Type} (l rows : List α) (e : ApiError)
    (h : (if l.isEmpty then (Except.error e : Except ApiError (List α)) else .ok l) = .ok rows) :
    rows = l ∧ l ≠ [] := by
  by_cases hl : l = []
  · simp [hl] at h
  · simp [List.isEmpty_iff, hl] at h
    exact ⟨h.symm, hl⟩

theorem emptyGuard_error {α : Type} (l : List α) (e e' : ApiError)
    (h : (if l.isEmpty then (Except.error e : Except ApiError (List α)) else .ok l) = .error e') :
    e' = e ∧ l = [] := by
  by_cases hl : l = []
  · simp [hl] at h
    exact ⟨h.symm, hl⟩
  · simp [List.isEmpty_iff, hl] at h

theorem emptyGuard_error_iff {α : Type} (l : List α) (e : ApiError) :
    ((if l.isEmpty then (Except.error e : Except ApiError (List α)) else .ok l) = .error e) ↔
      l = [] := by
  by_cases hl : l = [] <;> simp [List.isEmpty_iff, hl]

/-- C3: a passage query returns exactly the verses described by the
specification — the `[startVerse, endVerse]` slice of the chapter when
startChapter = endChapter, otherwise the three-part union — ordered by
(chapter, verse) ascending, and fails NotFound exactly when that verse set
is empty. -/
theorem get_passage_spec (tbl : List VerseRow) (book sc sv ec ev : Int) :
    (∀ rows, get_passage tbl book sc sv ec ev = .ok rows →
      rows.Perm (tbl.filter (fun r => passageSpecPred book sc sv ec ev r)) ∧
      rows.Pairwise (fun x y =>
        x.chapter < y.chapter ∨ (x.chapter = y.chapter ∧ x.verse ≤ y.verse))) ∧
    (get_passage tbl book sc sv ec ev = .error .notFound ↔
      tbl.filter (fun r => passageSpecPred book sc sv ec ev r) = []) ∧
    (∀ e, get_passage tbl book sc sv ec ev = .error e → e = .notFound) := by
  by_cases hsc : sc = ec
  · subst hsc
    have hfe : tbl.filter (fun r => passageSpecPred book sc sv sc ev r) =
        tbl.filter (fun r => r.book_id = book && r.chapter = sc &&
          sv ≤ r.verse && r.verse ≤ ev) := by
      apply List.filter_congr
      intro r _
      simp [passageSpecPred, Bool.and_assoc]
    have hgp : get_passage tbl book sc sv sc ev =
        (if (sortByKey (fun r => r.verse)
              (tbl.filter (fun r => r.book_id = book && r.chapter = sc &&
                sv ≤ r.verse && r.verse ≤ ev))).isEmpty
         then .error .notFound
         else .ok (sortByKey (fun r => r.verse)
              (tbl.filter (fun r => r.book_id = book && r.chapter = sc &&
                sv ≤ r.verse && r.verse ≤ ev)))) := by
      simp [get_passage]
    refine ⟨?_, ?_, ?_⟩
    · intro rows hrows
      rw [hgp] at hrows
      obtain ⟨hr, _⟩ := emptyGuard_ok _ _ _ hrows
      subst hr
      constructor
      · rw [hfe]
        exact sortByKey_perm _ _
      · have hch : ∀ x ∈ sortByKey (fun r : VerseRow => r.verse)
            (tbl.filter (fun r => r.book_id = book && r.chapter = sc &&
              sv ≤ r.verse && r.verse ≤ ev)), x.chapter = sc := by
          intro x hx
          have hm := (List.mem_filter.1 (mem_sortByKey.1 hx)).2
          simp only [Bool.and_eq_true, decide_eq_true_eq] at hm
          exact hm.1.1.2
        refine (sortByKey_sorted (fun r : VerseRow => r.verse) _).imp_of_mem ?_
        intro a b ha hb hab
        exact Or.inr ⟨(hch a ha).trans (hch b hb).symm, hab⟩
    · rw [hgp, emptyGuard_error_iff, sortByKey_eq_nil_iff, hfe]
    · intro e he
      rw [hgp] at he
      exact (emptyGuard_error _ _ _ he).1
  · have hfe : tbl.filter (fun r => passageSpecPred book sc sv ec ev r) =
        tbl.filter (fun r => r.book_id = book &&
          ((r.chapter = sc && sv ≤ r.verse) ||
           (sc < r.chapter && r.chapter < ec) ||
           (r.chapter = ec && r.verse ≤ ev))) := by
      apply List.filter_congr
      intro r _
      simp [passageSpecPred, hsc]
    have hgp : get_passage tbl book sc sv ec ev =
        (if (sortByKey vkey
              (tbl.filter (fun r => r.book_id = book &&
                ((r.chapter = sc && sv ≤ r.verse) ||
                 (sc < r.chapter && r.chapter < ec) ||
                 (r.chapter = ec && r.verse ≤ ev))))).isEmpty
         then .error .notFound
         else .ok (sortByKey vkey
              (tbl.filter (fun r => r.book_id = book &&
                ((r.chapter = sc && sv ≤ r.verse) ||
                 (sc < r.chapter && r.chapter < ec) ||
                 (r.chapter = ec && r.verse ≤ ev)))))) := by
      simp [get_passage, hsc]
    refine ⟨?_, ?_, ?_⟩
    · intro rows hrows
      rw [hgp] at hrows
      obtain ⟨hr, _⟩ := emptyGuard_ok _ _ _ hrows
      subst hr
      constructor
      · rw [hfe]
        exact sortByKey_perm _ _
      · refine (sortByKey_sorted vkey _).imp ?_
        intro a b hab
        exact (Prod.Lex.le_iff (a.chapter, a.verse) (b.chapter, b.verse)).1 hab
    · rw [hgp, emptyGuard_error_iff, sortByKey_eq_nil_iff, hfe]
    · intro e he
      rw [hgp] at he
      exact (emptyGuard_error _ _ _ he).1

theorem get_passage_spec_witness :
    ([⟨1, 1, 26, "v26"⟩, ⟨1, 2, 1, "w1"⟩, ⟨1, 2, 3, "w3"⟩] : List VerseRow).Perm
      ([⟨1, 2, 3, "w3"⟩, ⟨1, 1, 26, "v26"⟩, ⟨1, 1, 25, "v25"⟩, ⟨1, 2, 1, "w1"⟩].filter
        (fun r => passageSpecPred 1 1 26 2 3 r)) ∧
    ([⟨1, 1, 26, "v26"⟩, ⟨1, 2, 1, "w1"⟩, ⟨1, 2, 3, "w3"⟩] : List VerseRow).Pairwise
      (fun x y => x.chapter < y.chapter ∨ (x.chapter = y.chapter ∧ x.verse ≤ y.verse)) :=
  (get_passage_spec [⟨1, 2, 3, "w3"⟩, ⟨1, 1, 26, "v26"⟩, ⟨1, 1, 25, "v25"⟩, ⟨1, 2, 1, "w1"⟩]
      1 1 26 2 3).1
    [⟨1, 1, 26, "v26"⟩, ⟨1, 2, 1, "w1"⟩, ⟨1, 2, 3, "w3"⟩] rfl

/-- C6: for a (translation, book) pair with at least one verse,
chapterVerseCounts succeeds, its chapter list is exactly the distinct
chapters of the book in ascending order, and the sum of its per-chapter
counts equals the summed sizes of the versesInChapter results over all
chapters of that book. -/
theorem chapter_counts_consistent (tbl : List VerseRow) (book_id : Int)
    (h : tbl.filter (fun r => r.book_id = book_id) ≠ []) :
    (∀ e, get_chapter_counts tbl book_id ≠ .error e) ∧
    (∀ counts, get_chapter_counts tbl book_id = .ok counts →
      counts.map (fun p => p.1) =
        sortByKey (fun c => c)
          ((tbl.filter (fun r => r.book_id = book_id)).map (fun r => r.chapter)).dedup ∧
      (counts.map (fun p => p.2)).sum =
        ((counts.map (fun p => p.1)).map (fun c =>
          match get_verses_in_chapter tbl book_id c with
          | .ok vs => vs.length
          | .error _ => 0)).sum) := by
  have hchs : sortByKey (fun c => c)
      ((tbl.filter (fun r => r.book_id = book_id)).map (fun r => r.chapter)).dedup ≠ [] := by
    rw [Ne, sortByKey_eq_nil_iff]
    intro hnil
    have : (tbl.filter (fun r => r.book_id = book_id)).map (fun r => r.chapter) = [] := by
      have hd := List.dedup_sublist
        ((tbl.filter (fun r => r.book_id = book_id)).map (fun r => r.chapter))
      rcases hmap : (tbl.filter (fun r => r.book_id = book_id)).map (fun r => r.chapter) with _ | ⟨c, cs⟩
      · exact hmap
      · exfalso
        have hc : c ∈ (tbl.filter (fun r => r.book_id = book_id)).map (fun r => r.chapter) := by
          rw [hmap]; exact List.mem_cons_self c cs
        have := List.mem_dedup.2 hc
        rw [hnil] at this
        exact List.not_mem_nil c this
    exact h (List.map_eq_nil_iff.1 this)
  have hcounts : get_chapter_counts tbl book_id =
      .ok ((sortByKey (fun c => c)
        ((tbl.filter (fun r => r.book_id = book_id)).map (fun r => r.chapter)).dedup).map
        (fun c => (c, ((tbl.filter (fun r => r.book_id = book_id)).filter
          (fun r => r.chapter = c)).length))) := by
    rw [get_chapter_counts]
    have : ((sortByKey (fun c => c)
        ((tbl.filter (fun r => r.book_id = book_id)).map (fun r => r.chapter)).dedup).map
        (fun c => (c, ((tbl.filter (fun r => r.book_id = book_id)).filter
          (fun r => r.chapter = c)).length))).isEmpty = false := by
      rw [List.isEmpty_eq_false_iff_exists_mem]
      rcases hs : sortByKey (fun c => c)
          ((tbl.filter (fun r => r.book_id = book_id)).map (fun r => r.chapter)).dedup with
        _ | ⟨c, cs⟩
      · exact absurd hs hchs
      · exact ⟨_, List.mem_map_of_mem _ (hs ▸ List.mem_cons_self c cs)⟩
    simp only [this, Bool.false_eq_true, if_false]
  refine ⟨?_, ?_⟩
  · intro e he
    rw [hcounts] at he
    exact Except.noConfusion he
  · intro counts hc
    rw [hcounts] at hc
    have hceq := Except.ok.inj hc
    subst hceq
    constructor
    · rw [List.map_map]
      have hcomp : ((fun p : Int × Nat => p.1) ∘ fun c =>
          (c, ((tbl.filter (fun r => r.book_id = book_id)).filter
            (fun r => r.chapter = c)).length)) = fun c => c := rfl
      rw [hcomp, List.map_id']
    · rw [List.map_map, List.map_map, List.map_map]
      congr 1
      apply List.map_congr_left
      intro c hcmem
      have hcm : c ∈ (tbl.filter (fun r => r.book_id = book_id)).map (fun r => r.chapter) :=
        List.mem_dedup.1 (mem_sortByKey.1 hcmem)
      obtain ⟨r, hr, hrc⟩ := List.mem_map.1 hcm
      have hfilter : tbl.filter (fun x => x.book_id = book_id && x.chapter = c) =
          (tbl.filter (fun x => x.book_id = book_id)).filter (fun x => x.chapter = c) := by
        rw [List.filter_filter]
        apply List.filter_congr
        intro x _
        rw [Bool.and_comm]
      have hrmem : r ∈ (tbl.filter (fun x => x.book_id = book_id)).filter
          (fun x => x.chapter = c) := by
        rw [List.mem_filter]
        exact ⟨hr, by simp [hrc]⟩
      have hne : (tbl.filter (fun x => x.book_id = book_id)).filter
          (fun x => x.chapter = c) ≠ [] := by
        intro hnil
        rw [hnil] at hrmem
        exact List.not_mem_nil r hrmem
      have hsne : (sortByKey (fun x : VerseRow => x.verse)
          (tbl.filter (fun x => x.book_id = book_id && x.chapter = c))).isEmpty = false := by
        rw [Bool.eq_false_iff, Ne, List.isEmpty_iff, sortByKey_eq_nil_iff, hfilter]
        exact hne
      have hvic : get_verses_in_chapter tbl book_id c =
          .ok (sortByKey (fun x : VerseRow => x.verse)
            (tbl.filter (fun x => x.book_id = book_id && x.chapter = c))) := by
        rw [get_verses_in_chapter]
        simp only [hsne, Bool.false_eq_true, if_false]
      simp only [Function.comp_apply, hvic]
      rw [(sortByKey_perm (fun x : VerseRow => x.verse)
        (tbl.filter (fun x => x.book_id = book_id && x.chapter = c))).length_eq, hfilter]

theorem chapter_counts_consistent_witness :
    ([((1 : Int), (2 : Nat)), (2, 1)].map (fun p => p.2)).sum =
      (([((1 : Int), (2 : Nat)), (2, 1)].map (fun p => p.1)).map (fun c =>
        match get_verses_in_chapter
          [⟨1, 1, 1, "a"⟩, ⟨1, 1, 2, "b"⟩, ⟨1, 2, 1, "c"⟩, ⟨2, 9, 9, "z"⟩] 1 c with
        | .ok vs => vs.length
        | .error _ => 0)).sum :=
  ((chapter_counts_consistent
      [⟨1, 1, 1, "a"⟩, ⟨1, 1, 2, "b"⟩, ⟨1, 2, 1, "c"⟩, ⟨2, 9, 9, "z"⟩] 1
      (by decide)).2 [((1 : Int), (2 : Nat)), (2, 1)] rfl).2

theorem likeMatch_plain_prefix (q : List Char) (t : List Char)
    (hq : q.all (fun c => c ≠ '%' && c ≠ '_') = true)
    (h : likeMatch (q ++ ['%']) t = true) :
    lowerChars q <+: lowerChars t := by
  induction q generalizing t with
  | nil => exact List.nil_prefix
  | cons c q' ih =>
    simp only [List.all_cons, Bool.and_eq_true, decide_eq_true_eq] at hq
    obtain ⟨⟨hc1, hc2⟩, hq'⟩ := hq
    rw [List.cons_append] at h
    simp only [likeMatch] at h
    rw [if_neg hc1, if_neg hc2] at h
    cases t with
    | nil => simp at h
    | cons d ts =>
      simp only [Bool.and_eq_true, decide_eq_true_eq] at h
      obtain ⟨hcd, hmatch⟩ := h
      obtain ⟨rest, hrest⟩ := ih ts hq' hmatch
      exact ⟨rest, by
        simp only [lowerChars, List.map_cons, List.cons_append]
        rw [hcd]
        exact congrArg (Char.toLower d :: ·) hrest⟩

theorem likeMatch_percent_exists (ps : List Char) (t : List Char)
    (h : likeMatch ('%' :: ps) t = true) :
    ∃ s, s <:+ t ∧ likeMatch ps s = true := by
  simp only [likeMatch, if_true] at h
  rw [List.any_eq_true] at h
  obtain ⟨s, hs, hmatch⟩ := h
  exact ⟨s, (List.mem_tails s t).1 hs, hmatch⟩

theorem likeMatch_sound (query t : String)
    (hq : noWildcards query = true)
    (h : likeMatch ('%' :: (query.data ++ ['%'])) t.data = true) :
    containsCI query t := by
  obtain ⟨s, hsuf, hmatch⟩ := likeMatch_percent_exists _ _ h
  have hpre := likeMatch_plain_prefix query.data s hq hmatch
  have hsufl : lowerChars s <:+ lowerChars t.data := List.IsSuffix.map Char.toLower hsuf
  exact hpre.isInfix.trans hsufl.isInfix

/-- C4 (amended): searchVerses returns at most 100 rows ordered by
(chapter, verse) ascending; every returned row comes from the table,
matches the LIKE pattern built from the query, and respects the optional
book restriction; when the query contains no LIKE wildcard (`%` or `_`),
every returned row's text contains the query as a case-insensitive
substring; and an empty match set yields an empty list, never an error. -/
theorem search_verses_spec (tbl : List VerseRow) (query : String) (book : Option Int) :
    (search_verses tbl query book).length ≤ 100 ∧
    (search_verses tbl query book).Pairwise (fun x y =>
      x.chapter < y.chapter ∨ (x.chapter = y.chapter ∧ x.verse ≤ y.verse)) ∧
    (∀ r ∈ search_verses tbl query book,
      r ∈ tbl ∧ searchPred query book r = true ∧ ∀ b, book = some b → r.book_id = b) ∧
    (noWildcards query = true →
      ∀ r ∈ search_verses tbl query book, containsCI query r.text) ∧
    (search_verses tbl query book = [] ↔ tbl.filter (searchPred query book) = []) := by
  have hmem : ∀ r ∈ search_verses tbl query book,
      r ∈ tbl ∧ searchPred query book r = true := by
    intro r hr
    have hs : r ∈ sortByKey vkey (tbl.filter (searchPred query book)) :=
      (List.take_sublist 100 _).mem hr
    exact List.mem_filter.1 (mem_sortByKey.1 hs)
  refine ⟨?_, ?_, ?_, ?_, ?_⟩
  · rw [search_verses, List.length_take]
    exact min_le_left _ _
  · refine List.Pairwise.imp ?_
      (((sortByKey_sorted vkey (tbl.filter (searchPred query book)))).sublist
        (List.take_sublist 100 _))
    intro a b hab
    exact (Prod.Lex.le_iff (a.chapter, a.verse) (b.chapter, b.verse)).1 hab
  · intro r hr
    obtain ⟨hrt, hrp⟩ := hmem r hr
    refine ⟨hrt, hrp, ?_⟩
    intro b hb
    subst hb
    simp only [searchPred, Bool.and_eq_true] at hrp
    simpa using hrp.2
  · intro hnw r hr
    obtain ⟨-, hrp⟩ := hmem r hr
    simp only [searchPred, Bool.and_eq_true] at hrp
    exact likeMatch_sound query r.text hnw hrp.1
  · rw [search_verses, List.take_eq_nil_iff, sortByKey_eq_nil_iff]
    simp

/-- C4 fails as stated: for the query "a%b" (which contains the LIKE
wildcard `%`), the row with text "acb" is returned by the search although
"acb" does not contain the substring "a%b" under any case folding. -/
theorem search_verses_counterexample :
    search_verses [⟨1, 1, 1, "acb"⟩] "a%b" none = [⟨1, 1, 1, "acb"⟩] ∧
    ¬ containsCI "a%b" "acb" := by
  refine ⟨rfl, ?_⟩
  rw [containsCI]
  decide

theorem search_verses_spec_witness :
    noWildcards "beginning" = true ∧
    (∀ r ∈ search_verses [⟨1, 1, 1, "In the Beginning"⟩, ⟨1, 1, 2, "void"⟩] "beginning" none,
      containsCI "beginning" r.text) :=
  ⟨by decide,
    (search_verses_spec [⟨1, 1, 1, "In the Beginning"⟩, ⟨1, 1, 2, "void"⟩]
      "beginning" none).2.2.2.1 (by decide)⟩

theorem dictLookup_append_self {β : Type} (d : List (String × β)) (key : String) (v : β) :
    dictLookup (d ++ [(key, v)]) key ≠ none := by
  induction d with
  | nil => simp [dictLookup]
  | cons p d' ih =>
    obtain ⟨pk, pv⟩ := p
    by_cases hp : pk = key
    · simp [dictLookup, hp]
    · simpa [dictLookup, hp] using ih

theorem dictLookup_overwrite_self {β : Type} (d : List (String × β)) (key : String) (v : β)
    (h : d.any (fun p => p.1 = key) = true) :
    dictLookup (d.map (fun p => if p.1 = key then (key, v) else p)) key ≠ none := by
  induction d with
  | nil => simp at h
  | cons p d' ih =>
    obtain ⟨pk, pv⟩ := p
    by_cases hp : pk = key
    · simp only [List.map_cons]
      rw [if_pos hp]
      simp [dictLookup]
    · simp only [List.map_cons]
      rw [if_neg hp]
      simp only [List.any_cons, Bool.or_eq_true, decide_eq_true_eq] at h
      rcases h with h | h
      · exact absurd h hp
      · simp only [dictLookup, if_neg hp]
        exact ih h

theorem dictLookup_map_overwrite_other {β : Type} (d : List (String × β)) (key k : String)
    (v : β) (hk : k ≠ key) :
    dictLookup (d.map (fun p => if p.1 = key then (key, v) else p)) k = dictLookup d k := by
  induction d with
  | nil => rfl
  | cons p d' ih =>
    obtain ⟨pk, pv⟩ := p
    by_cases hp : pk = key
    · simp only [List.map_cons]
      rw [if_pos hp]
      have h1 : key ≠ k := fun hc => hk hc.symm
      have h2 : pk ≠ k := by rw [hp]; exact h1
      simp only [dictLookup, if_neg h1, if_neg h2]
      exact ih
    · simp only [List.map_cons]
      rw [if_neg hp]
      by_cases hpk : pk = k
      · simp only [dictLookup, if_pos hpk]
      · simp only [dictLookup, if_neg hpk]
        exact ih

theorem dictLookup_append_left {β : Type} (d e : List (String × β)) (k : String)
    (h : dictLookup d k ≠ none) : dictLookup (d ++ e) k ≠ none := by
  induction d with
  | nil => simp [dictLookup] at h
  | cons p d' ih =>
    obtain ⟨pk, pv⟩ := p
    rw [List.cons_append]
    by_cases hpk : pk = k
    · simp [dictLookup, hpk]
    · simp only [dictLookup, if_neg hpk] at h ⊢
      exact ih h

theorem dictLookup_dictInsert_self {β : Type} (d : List (String × β)) (key : String) (v : β) :
    dictLookup (dictInsert d key v) key ≠ none := by
  rw [dictInsert]
  by_cases hany : d.any (fun p => p.1 = key) = true
  · rw [if_pos hany]
    exact dictLookup_overwrite_self d key v hany
  · rw [if_neg hany]
    exact dictLookup_append_self d key v

theorem dictLookup_dictInsert_keep {β : Type} (d : List (String × β)) (key k : String)
    (v : β) (h : dictLookup d k ≠ none) :
    dictLookup (dictInsert d key v) k ≠ none := by
  by_cases hk : k = key
  · subst hk
    exact dictLookup_dictInsert_self d k v
  · rw [dictInsert]
    by_cases hany : d.any (fun p => p.1 = key) = true
    · rw [if_pos hany, dictLookup_map_overwrite_other d key k v hk]
      exact h
    · rw [if_neg hany]
      exact dictLookup_append_left d [(key, v)] k h

theorem compareSide_total (w : DbWorld) (t : String) (book chapter : Int)
    (verse : Option Int) (h : findDb w (translationDbPath t) ≠ none) :
    ∃ r, compareSide w t book chapter verse = .ok r ∧
      (findDb w (translationDbPath t) = some none → r = .engineError) := by
  cases hfd : findDb w (translationDbPath t) with
  | none => exact absurd hfd h
  | some d =>
    cases d with
    | none => exact ⟨.engineError, by simp [compareSide, hfd], fun _ => rfl⟩
    | some tbl =>
      cases verse with
      | none =>
        exact ⟨chapterQuery tbl book chapter, by simp [compareSide, hfd], by simp [hfd]⟩
      | some v =>
        by_cases hv : v = 0
        · exact ⟨chapterQuery tbl book chapter, by simp [compareSide, hfd, hv], by simp [hfd]⟩
        · exact ⟨verseQuery tbl book chapter v, by simp [compareSide, hfd, hv], by simp [hfd]⟩

/-- C1 (amended): when both requested translations' datasets exist, compare
returns a result map containing an entry for each translation: a broken
verses table on one side is recorded as a per-side engine-error value and a
missing verse as a per-side not-found value, neither aborting the other
side.  But when either dataset file is missing, the whole operation aborts
with DatasetNotFound and no result map is produced. -/
theorem compare_translations_both_sides (w : DbWorld) (t1 t2 : String)
    (book chapter : Int) (verse : Option Int) :
    (findDb w (translationDbPath t1) ≠ none → findDb w (translationDbPath t2) ≠ none →
      ∃ r1 r2, compare_translations w t1 t2 book chapter verse =
          .ok (dictInsert (dictInsert [] (strUpper t1) r1) (strUpper t2) r2) ∧
        dictLookup (dictInsert (dictInsert [] (strUpper t1) r1) (strUpper t2) r2)
          (strUpper t1) ≠ none ∧
        dictLookup (dictInsert (dictInsert [] (strUpper t1) r1) (strUpper t2) r2)
          (strUpper t2) ≠ none ∧
        (findDb w (translationDbPath t1) = some none → r1 = .engineError) ∧
        (findDb w (translationDbPath t2) = some none → r2 = .engineError)) ∧
    (findDb w (translationDbPath t1) = none →
      compare_translations w t1 t2 book chapter verse =
        .error (.datasetNotFound (translationDbPath t1))) ∧
    (findDb w (translationDbPath t2) = none → findDb w (translationDbPath t1) ≠ none →
      compare_translations w t1 t2 book chapter verse =
        .error (.datasetNotFound (translationDbPath t2))) := by
  refine ⟨?_, ?_, ?_⟩
  · intro h1 h2
    obtain ⟨r1, hr1, he1⟩ := compareSide_total w t1 book chapter verse h1
    obtain ⟨r2, hr2, he2⟩ := compareSide_total w t2 book chapter verse h2
    refine ⟨r1, r2, ?_, ?_, ?_, he1, he2⟩
    · rw [compare_translations, hr1, hr2]
    · exact dictLookup_dictInsert_keep _ _ _ _
        (dictLookup_dictInsert_self [] (strUpper t1) r1)
    · exact dictLookup_dictInsert_self _ _ _
  · intro h1
    rw [compare_translations]
    have : compareSide w t1 book chapter verse =
        .error (.datasetNotFound (translationDbPath t1)) := by
      simp [compareSide, h1]
    rw [this]
  · intro h2 h1
    obtain ⟨r1, hr1, -⟩ := compareSide_total w t1 book chapter verse h1
    rw [compare_translations, hr1]
    have : compareSide w t2 book chapter verse =
        .error (.datasetNotFound (translationDbPath t2)) := by
      simp [compareSide, h2]
    rw [this]

/-- C1 fails as stated: here translation2's dataset exists and is healthy,
but translation1's file is missing — the comparison aborts with
DatasetNotFound and no result map (in particular no entry for the healthy
translation2 side) is produced. -/
theorem compare_translations_counterexample :
    compare_translations
        [("bible_databases/formats/sqlite/T2.db", some [⟨1, 1, 1, "x"⟩])]
        "T1" "T2" 1 1 none =
      .error (.datasetNotFound "bible_databases/formats/sqlite/T1.db") := rfl

theorem compare_translations_both_sides_witness :
    (compare_translations
        [("bible_databases/formats/sqlite/T1.db", some []),
         ("bible_databases/formats/sqlite/T2.db", none)] "T1" "T2" 1 1 none ≠
      .error (.datasetNotFound (translationDbPath "T1"))) ∧
    compare_translations [("bible_databases/formats/sqlite/T2.db", some [])]
        "T1" "T2" 1 1 none =
      .error (.datasetNotFound (translationDbPath "T1")) := by
  constructor
  · obtain ⟨r1, r2, heq, -, -, -, -⟩ := (compare_translations_both_sides
      [("bible_databases/formats/sqlite/T1.db", some []),
       ("bible_databases/formats/sqlite/T2.db", none)] "T1" "T2" 1 1 none).1
      (by decide) (by decide)
    rw [heq]
    simp
  · exact (compare_translations_both_sides [("bible_databases/formats/sqlite/T2.db", some [])]
      "T1" "T2" 1 1 none).2.1 (by decide)

theorem get_all_translations_spec_witness :
    ([⟨"KJV", "King James Version", none⟩] : List Translation) =
      ([(("KJV.db" : String), CatalogRead.row ⟨"KJV", "King James Version", none⟩),
        ("BROKEN.db", CatalogRead.openError),
        ("notes.txt", CatalogRead.row ⟨"X", "Y", none⟩)].filter
          (fun f => endsWithDb f.1)).filterMap (fun f => readCatalog f.2) ∧
    ([⟨"KJV", "King James Version", none⟩] : List Translation) ≠ [] :=
  (get_all_translations_spec
    [(("KJV.db" : String), CatalogRead.row ⟨"KJV", "King James Version", none⟩),
     ("BROKEN.db", CatalogRead.openError),
     ("notes.txt", CatalogRead.row ⟨"X", "Y", none⟩)]).1
    [⟨"KJV", "King James Version", none⟩] rfl
